import Mathlib

/-!
Shallow embedding of `src/python/h3_toolkit/utils.py` (h3-toolkit).

The repository's core is a pair of traversals over the H3 aperture-7
hierarchical grid, driven by four static face-adjacency tables:

* `trace_cell_to_ancestor_faces` (ascend): maps a cell's exposed faces to the
  corresponding faces of a coarser ancestor, one level at a time;
* `trace_cell_to_parent_faces`: the one-level wrapper;
* `cell_to_coarsest_ancestor_on_faces`: iterates ascend upward until the face
  set empties;
* `children_on_boundary_faces` (descend): enumerates all descendants at a
  target resolution lying on given faces of the parent, pruning subtrees whose
  mapped face set becomes empty.

The grid itself is provided by the external `h3` library; following the
specification's external-interface contract, a cell is modelled as a base cell
identifier together with the list of child digits (0–6) from the base cell
down to the cell.  Resolution is the length of the digit path, the parent at
resolution `r` keeps the first `r` digits, children append one digit, and the
digit of a cell relative to its immediate parent is the last digit of the
path.  A cell is a pentagon when its base cell is one of the twelve H3
pentagon base cells and every digit on its path is 0; pentagon cells have no
digit-1 child, so `h3.cell_to_child_pos` (the position of a cell in its
parent's ordered child list, which is what keys the tables) equals the raw
digit under a hexagon parent but digit minus one under a pentagon parent.
Face sets are `Finset Nat`; Python's raised `ValueError` is modelled with
`Except String`.
-/

namespace H3Toolkit

/-- The twelve H3 pentagon base cells. -/
def pentBase (b : Nat) : Bool :=
  [4, 14, 24, 38, 49, 58, 63, 72, 83, 97, 107, 117].contains b

/-- A grid cell: a base cell (resolution 0) plus the digit path down to it. -/
structure Cell where
  base : Nat
  digits : List Nat
deriving DecidableEq

/-- `h3.get_resolution`: the resolution of a cell is the length of its digit path. -/
def Cell.res (c : Cell) : Nat := c.digits.length

/-- `h3.is_pentagon`: a cell is a pentagon when its base cell is a pentagon base
cell and it is the centered (all digits 0) descendant. -/
def Cell.isPentagon (c : Cell) : Bool :=
  pentBase c.base && c.digits.all (· == 0)

/-- `h3.cell_to_parent(c, r)`: keep the first `r` digits. -/
def Cell.parentAt (c : Cell) (r : Nat) : Cell :=
  ⟨c.base, c.digits.take r⟩

/-- The raw H3 digit of a cell under its immediate parent: the last digit of
its path. -/
def Cell.lastDigit (c : Cell) : Nat := c.digits.getLastD 0

/-- `h3.cell_to_child_pos(c, resolution(c) - 1)`: the position of the cell in
the ordered child list of its immediate parent.  For a hexagon parent the
children carry digits 0–6 in order, so the position is the raw digit; a
pentagon parent has no digit-1 child, so its children carry digits
0, 2, 3, 4, 5, 6 and the digit-`d` child with `d ≥ 2` sits at position
`d - 1` (the center digit-0 child sits at position 0 in both cases, as
`0 - 1 = 0` in `Nat`). -/
def Cell.childPos (c : Cell) : Nat :=
  if (c.parentAt (c.res - 1)).isPentagon then c.lastDigit - 1 else c.lastDigit

/-- The child digits a cell offers: a pentagon has no digit-1 child. -/
def Cell.childDigits (c : Cell) : List Nat :=
  if c.isPentagon then [0, 2, 3, 4, 5, 6] else [0, 1, 2, 3, 4, 5, 6]

/-- `h3.cell_to_children(c, resolution(c) + 1)`: append each available digit. -/
def Cell.children (c : Cell) : List Cell :=
  c.childDigits.map (fun d => ⟨c.base, c.digits ++ [d]⟩)

/-- Digit-path validity below a (possibly pentagonal) start: digits are in
0–6, and a digit 1 never directly follows a pentagon ancestor. -/
def validDigits : Bool → List Nat → Bool
  | _, [] => true
  | pent, d :: ds => decide (d ≤ 6) && !(pent && d == 1) && validDigits (pent && d == 0) ds

/-- A valid H3 cell: a real base cell and a valid digit path below it. -/
def Cell.valid (c : Cell) : Bool :=
  decide (c.base < 122) && validDigits (pentBase c.base) c.digits

/-! ### The four static face-adjacency tables

Transcribed entry for entry from `_boundary_face_mapping_hex`,
`_reversed_boundary_face_mapping_hex`, `_boundary_face_mapping_pent` and
`_reversed_boundary_face_mapping_pent`.  A forward table maps a child face to
the parent face it lies along (`none` = interior edge); a reverse table maps a
parent face to the set of child faces inherited from it (`∅` = no
contribution, which is how the Python code treats an absent key). -/

/-- `_boundary_face_mapping_hex[parity][digit][face]`. -/
def forwardHex (parity digit face : Nat) : Option Nat :=
  if digit = 1 then
    if parity = 0 then
      if face = 2 then some 3 else if face = 3 then some 1 else if face = 1 then some 1 else none
    else
      if face = 3 then some 3 else if face = 1 then some 3 else if face = 5 then some 1 else none
  else if digit = 2 then
    if parity = 0 then
      if face = 4 then some 6 else if face = 2 then some 2 else if face = 6 then some 2 else none
    else
      if face = 2 then some 6 else if face = 6 then some 6 else if face = 3 then some 2 else none
  else if digit = 3 then
    if parity = 0 then
      if face = 6 then some 2 else if face = 2 then some 3 else if face = 3 then some 3 else none
    else
      if face = 2 then some 2 else if face = 1 then some 3 else if face = 3 then some 2 else none
  else if digit = 4 then
    if parity = 0 then
      if face = 1 then some 5 else if face = 4 then some 4 else if face = 5 then some 4 else none
    else
      if face = 4 then some 5 else if face = 5 then some 5 else if face = 6 then some 4 else none
  else if digit = 5 then
    if parity = 0 then
      if face = 1 then some 5 else if face = 3 then some 1 else if face = 5 then some 5 else none
    else
      if face = 1 then some 1 else if face = 4 then some 5 else if face = 5 then some 1 else none
  else if digit = 6 then
    if parity = 0 then
      if face = 4 then some 6 else if face = 5 then some 4 else if face = 6 then some 6 else none
    else
      if face = 4 then some 4 else if face = 2 then some 6 else if face = 6 then some 4 else none
  else none

/-- `_boundary_face_mapping_pent[parity][digit][face]`. -/
def forwardPent (parity digit face : Nat) : Option Nat :=
  if digit = 1 then
    if parity = 0 then
      if face = 4 then some 5 else if face = 2 then some 1 else if face = 6 then some 1 else none
    else
      if face = 2 then some 5 else if face = 6 then some 5 else if face = 3 then some 1 else none
  else if digit = 2 then
    if parity = 0 then
      if face = 6 then some 1 else if face = 3 then some 2 else if face = 2 then some 2 else none
    else
      if face = 3 then some 1 else if face = 2 then some 1 else if face = 1 then some 2 else none
  else if digit = 3 then
    if parity = 0 then
      if face = 5 then some 2 else if face = 4 then some 2 else if face = 6 then some 4 else none
    else
      if face = 1 then some 4 else if face = 4 then some 3 else if face = 5 then some 3 else none
  else if digit = 4 then
    if parity = 0 then
      if face = 3 then some 2 else if face = 5 then some 4 else if face = 1 then some 2 else none
    else
      if face = 1 then some 2 else if face = 5 then some 2 else if face = 4 then some 4 else none
  else if digit = 5 then
    if parity = 0 then
      if face = 5 then some 3 else if face = 6 then some 5 else if face = 4 then some 5 else none
    else
      if face = 2 then some 5 else if face = 4 then some 3 else if face = 6 then some 3 else none
  else none

/-- `_reversed_boundary_face_mapping_hex[parity][digit][face]`. -/
def reverseHex (parity digit face : Nat) : Finset Nat :=
  if digit = 1 then
    if parity = 0 then
      if face = 1 then {1, 3} else if face = 3 then {2} else ∅
    else
      if face = 3 then {1, 3} else if face = 1 then {5} else ∅
  else if digit = 2 then
    if parity = 0 then
      if face = 2 then {2, 6} else if face = 6 then {4} else ∅
    else
      if face = 6 then {2, 6} else if face = 2 then {3} else ∅
  else if digit = 3 then
    if parity = 0 then
      if face = 2 then {6} else if face = 3 then {2, 3} else ∅
    else
      if face = 2 then {2, 3} else if face = 3 then {1} else ∅
  else if digit = 4 then
    if parity = 0 then
      if face = 4 then {4, 5} else if face = 5 then {1} else ∅
    else
      if face = 5 then {4, 5} else if face = 4 then {6} else ∅
  else if digit = 5 then
    if parity = 0 then
      if face = 5 then {1, 5} else if face = 1 then {3} else ∅
    else
      if face = 1 then {1, 5} else if face = 5 then {4} else ∅
  else if digit = 6 then
    if parity = 0 then
      if face = 4 then {5} else if face = 6 then {4, 6} else ∅
    else
      if face = 4 then {4, 6} else if face = 6 then {2} else ∅
  else ∅

/-- `_reversed_boundary_face_mapping_pent[parity][digit][face]`. -/
def reversePent (parity digit face : Nat) : Finset Nat :=
  if digit = 1 then
    if parity = 0 then
      if face = 1 then {2, 6} else if face = 5 then {4} else ∅
    else
      if face = 5 then {2, 6} else if face = 1 then {3} else ∅
  else if digit = 2 then
    if parity = 0 then
      if face = 1 then {6} else if face = 2 then {2, 3} else ∅
    else
      if face = 2 then {1} else if face = 1 then {2, 3} else ∅
  else if digit = 3 then
    if parity = 0 then
      if face = 4 then {1} else if face = 3 then {4, 5} else ∅
    else
      if face = 3 then {6} else if face = 4 then {4, 5} else ∅
  else if digit = 4 then
    if parity = 0 then
      if face = 4 then {5} else if face = 2 then {1, 3} else ∅
    else
      if face = 4 then {4} else if face = 2 then {1, 5} else ∅
  else if digit = 5 then
    if parity = 0 then
      if face = 5 then {4, 6} else if face = 3 then {5} else ∅
    else
      if face = 5 then {2} else if face = 3 then {4, 6} else ∅
  else ∅

/-! ### The traversals -/

/-- `{face_map[f] for f in input_faces if f in face_map}`. -/
def mapFaces (face_map : Nat → Option Nat) (faces : Finset Nat) : Finset Nat :=
  faces.biUnion (fun f => (face_map f).toFinset)

/-- The union over `parent_face in faces` of `child_mapping[parent_face]`
(absent keys contribute nothing). -/
def reverseMapFaces (child_mapping : Nat → Finset Nat) (faces : Finset Nat) : Finset Nat :=
  faces.biUnion child_mapping

/-- The `for res in range(h_res, res_parent, -1)` loop of
`trace_cell_to_ancestor_faces`; the fuel is the number of levels walked,
`h_res - res_parent`.  At each step the current cell's resolution plays the
role of the loop variable `res`. -/
def traceLoop : Nat → Cell → Finset Nat → Finset Nat
  | 0, _, faces => faces
  | n + 1, current, faces =>
    if current.isPentagon then ∅
    else
      let parity := current.res % 2
      let child_pos := current.childPos
      let parent := current.parentAt (current.res - 1)
      if child_pos = 0 then ∅
      else
        let face_map :=
          if parent.isPentagon then forwardPent parity child_pos
          else forwardHex parity child_pos
        let mapped := mapFaces face_map faces
        if mapped = ∅ then ∅ else traceLoop n parent mapped

/-- `trace_cell_to_ancestor_faces(h, input_faces, res_parent)`; `none` for the
Python default `res_parent=None`, which becomes `resolution(h) - 1`. -/
def trace_cell_to_ancestor_faces (h : Cell) (input_faces : Finset Nat)
    (res_parent : Option Int) : Except String (Finset Nat) :=
  let h_res : Int := h.res
  let rp : Int := res_parent.getD (h_res - 1)
  if h_res ≤ rp then .error "res_parent must be less than cell resolution."
  else if rp < 0 then .error "res_parent cannot be negative."
  else if input_faces = ∅ then .ok ∅
  else .ok (traceLoop (h.res - rp.toNat) h input_faces)

/-- `trace_cell_to_parent_faces(h, input_faces)`. -/
def trace_cell_to_parent_faces (h : Cell) (input_faces : Finset Nat) :
    Except String (Finset Nat) :=
  trace_cell_to_ancestor_faces h input_faces (some ((h.res : Int) - 1))

/-- The `while res > 0` loop of `cell_to_coarsest_ancestor_on_faces`; the fuel
equals the tracked resolution `res`, which always equals the current cell's
resolution. -/
def coarsestLoop : Nat → Cell → Finset Nat → Except String Cell
  | 0, current, _ => .ok current
  | n + 1, current, faces =>
    match trace_cell_to_ancestor_faces current faces (some ((current.res : Int) - 1)) with
    | .error e => .error e
    | .ok boundary =>
      if boundary = ∅ then .ok current
      else coarsestLoop n (current.parentAt (current.res - 1)) boundary

/-- `cell_to_coarsest_ancestor_on_faces(h, input_faces)`. -/
def cell_to_coarsest_ancestor_on_faces (h : Cell) (input_faces : Finset Nat) :
    Except String Cell :=
  coarsestLoop h.res h input_faces

/-- The inner recursion `_children_by_face(current, res, faces)` of
`children_on_boundary_faces`; the fuel is `target_res - res`, so fuel 0 is the
`res == target_res` base case.  `res` is always the current cell's
resolution. -/
def childrenLoop : Nat → Cell → Finset Nat → List Cell
  | 0, current, _ => [current]
  | n + 1, current, faces =>
    let parity := (current.res + 1) % 2
    let reverse_mapping :=
      if current.isPentagon then reversePent parity else reverseHex parity
    current.children.flatMap (fun child =>
      let mapped := reverseMapFaces (reverse_mapping child.childPos) faces
      if mapped = ∅ then [] else childrenLoop n child mapped)

/-- `children_on_boundary_faces(parent, target_res, input_faces)`. -/
def children_on_boundary_faces (parent : Cell) (target_res : Int)
    (input_faces : Finset Nat) : Except String (List Cell) :=
  if target_res < (parent.res : Int) then
    .error "target_res must be greater than parent cell resolution."
  else .ok (childrenLoop (target_res - (parent.res : Int)).toNat parent input_faces)

/-! ### Basic cell algebra -/

lemma mem_children_iff {c child : Cell} :
    child ∈ c.children ↔ ∃ d ∈ c.childDigits, child = ⟨c.base, c.digits ++ [d]⟩ := by
  simp [Cell.children, List.mem_map, eq_comm]

lemma res_of_mem_children {c child : Cell} (h : child ∈ c.children) :
    child.res = c.res + 1 := by
  rcases mem_children_iff.1 h with ⟨d, _, rfl⟩
  simp [Cell.res]

lemma childPos_zero {c : Cell} (h : c.lastDigit = 0) : c.childPos = 0 := by
  unfold Cell.childPos
  rw [h]
  split <;> rfl

lemma childPos_le_lastDigit (c : Cell) : c.childPos ≤ c.lastDigit := by
  unfold Cell.childPos
  split <;> omega

lemma parentAt_res (c : Cell) (r : Nat) : (c.parentAt r).res = min r c.res := by
  simp [Cell.parentAt, Cell.res, List.length_take]

lemma parentAt_parentAt (c : Cell) (r s : Nat) :
    (c.parentAt r).parentAt s = c.parentAt (min s r) := by
  simp [Cell.parentAt, List.take_take]

lemma parentAt_pred_parentAt (c : Cell) (j : Nat) :
    (c.parentAt (c.res - 1)).parentAt ((c.parentAt (c.res - 1)).res - j) =
      c.parentAt (c.res - (j + 1)) := by
  rw [parentAt_res, parentAt_parentAt]
  have h : min (min (c.res - 1) c.res - j) (c.res - 1) = c.res - (j + 1) := by omega
  rw [h]

lemma parentAt_res_self (c : Cell) : c.parentAt c.res = c := by
  cases c with
  | mk b ds => simp [Cell.parentAt, Cell.res, List.take_length]

lemma getLastD_mem : ∀ (l : List Nat) (d0 : Nat), l ≠ [] → l.getLastD d0 ∈ l := by
  intro l
  induction l with
  | nil => intro d0 h; exact absurd rfl h
  | cons a t ih =>
    intro d0 _
    cases t with
    | nil => simp [List.getLastD_cons]
    | cons b t2 =>
      rw [List.getLastD_cons]
      exact List.mem_cons_of_mem a (ih a (by simp))

lemma take_pred_append_getLastD : ∀ (l : List Nat) (d0 : Nat), l ≠ [] →
    l.take (l.length - 1) ++ [l.getLastD d0] = l := by
  intro l
  induction l with
  | nil => intro d0 h; exact absurd rfl h
  | cons a t ih =>
    intro d0 _
    cases t with
    | nil => simp [List.getLastD_cons]
    | cons b t2 =>
      rw [List.getLastD_cons]
      have hlen : (a :: b :: t2).length - 1 = (b :: t2).length - 1 + 1 := by
        simp [List.length_cons]
      rw [hlen, List.take_succ_cons, List.cons_append, ih a (by simp)]

/-! ### Facts about the digit-path validity predicate -/

lemma validDigits_le6 : ∀ (l : List Nat) (pent : Bool),
    validDigits pent l = true → ∀ d ∈ l, d ≤ 6 := by
  intro l
  induction l with
  | nil => intro pent _ d hd; simp at hd
  | cons a t ih =>
    intro pent hv d hd
    simp only [validDigits, Bool.and_eq_true, decide_eq_true_eq] at hv
    rcases List.mem_cons.1 hd with rfl | hd
    · exact hv.1.1
    · exact ih _ hv.2 d hd

lemma validDigits_pent_last : ∀ (l : List Nat) (d : Nat) (pent : Bool),
    validDigits pent (l ++ [d]) = true → pent = true → l.all (· == 0) = true → d ≠ 1 := by
  intro l
  induction l with
  | nil =>
    intro d pent hv hp _
    simp only [List.nil_append, validDigits, Bool.and_eq_true, Bool.not_eq_true',
      Bool.and_eq_false_iff] at hv
    rcases hv.1.2 with h | h
    · rw [hp] at h; cases h
    · intro h1; rw [h1] at h; cases h
  | cons a t ih =>
    intro d pent hv hp hall
    simp only [List.cons_append, validDigits, Bool.and_eq_true] at hv
    simp only [List.all_cons, Bool.and_eq_true, beq_iff_eq] at hall
    have : (pent && a == 0) = true := by rw [hp, hall.1]; rfl
    exact ih d _ (this ▸ hv.2) this hall.2

lemma mem_hex_digits {d : Nat} (h6 : d ≤ 6) : d ∈ [0, 1, 2, 3, 4, 5, 6] := by
  interval_cases d <;> simp

lemma mem_pent_digits {d : Nat} (h6 : d ≤ 6) (h1 : d ≠ 1) : d ∈ [0, 2, 3, 4, 5, 6] := by
  interval_cases d <;> simp_all

/-! ### Facts about the tables -/

lemma reverseHex_digit_zero (p f : Nat) : reverseHex p 0 f = ∅ := by
  simp [reverseHex]

lemma reversePent_digit_zero (p f : Nat) : reversePent p 0 f = ∅ := by
  simp [reversePent]

lemma reverseMapFaces_congr_empty {rev : Nat → Finset Nat}
    (hrev : ∀ f, rev f = ∅) (faces : Finset Nat) : reverseMapFaces rev faces = ∅ := by
  ext x
  simp [reverseMapFaces, Finset.mem_biUnion, hrev]

/-- Table consistency underlying the ascend/descend round-trip, hex case:
whenever the forward image of the full face set is non-empty, pushing that
image back through the reverse table at the same parity and digit is also
non-empty. -/
lemma roundtrip_tables_hex : ∀ p < 2, ∀ d < 7,
    mapFaces (forwardHex p d) {1, 2, 3, 4, 5, 6} ≠ ∅ →
    reverseMapFaces (reverseHex p d) (mapFaces (forwardHex p d) {1, 2, 3, 4, 5, 6}) ≠ ∅ := by
  decide

/-- Table consistency underlying the ascend/descend round-trip, pentagon
case.  The pentagon reverse table is not the set-inverse of the pentagon
forward table, but the forward image of the full face set always meets the
reverse table keys with a non-empty union. -/
lemma roundtrip_tables_pent : ∀ p < 2, ∀ d < 7,
    mapFaces (forwardPent p d) {1, 2, 3, 4, 5, 6} ≠ ∅ →
    reverseMapFaces (reversePent p d) (mapFaces (forwardPent p d) {1, 2, 3, 4, 5, 6}) ≠ ∅ := by
  decide

/-! ### Loop invariants -/

/-- Both reverse tables are empty at digit 0, whichever variant the pentagon
check selects, so a digit-0 child always maps to the empty face set. -/
lemma reverse_choice_digit_zero (b : Bool) (p : Nat) (faces : Finset Nat) :
    reverseMapFaces ((if b then reversePent p else reverseHex p) 0) faces = ∅ := by
  cases b
  · exact reverseMapFaces_congr_empty (fun f => reverseHex_digit_zero p f) faces
  · exact reverseMapFaces_congr_empty (fun f => reversePent_digit_zero p f) faces

/-- Unfolding one level of the descend recursion: a cell emitted with fuel
`n + 1` comes from some direct child whose mapped face set was non-empty. -/
lemma mem_childrenLoop_succ {n : Nat} {c x : Cell} {faces : Finset Nat}
    (hx : x ∈ childrenLoop (n + 1) c faces) :
    ∃ child ∈ c.children, ∃ mapped : Finset Nat, mapped ≠ ∅ ∧
      mapped = reverseMapFaces
        ((if c.isPentagon then reversePent ((c.res + 1) % 2)
          else reverseHex ((c.res + 1) % 2)) child.childPos) faces ∧
      x ∈ childrenLoop n child mapped := by
  simp only [childrenLoop, List.mem_flatMap] at hx
  obtain ⟨child, hchild, hx⟩ := hx
  by_cases hm : reverseMapFaces ((if c.isPentagon then reversePent ((c.res + 1) % 2)
      else reverseHex ((c.res + 1) % 2)) child.childPos) faces = ∅
  · rw [if_pos hm] at hx
    simp at hx
  · rw [if_neg hm] at hx
    exact ⟨child, hchild, _, hm, rfl, hx⟩

/-- Every cell emitted by the descend recursion with fuel `n` sits exactly `n`
levels below the cell the recursion was entered at. -/
lemma childrenLoop_res : ∀ (n : Nat) (c : Cell) (faces : Finset Nat) (x : Cell),
    x ∈ childrenLoop n c faces → x.res = c.res + n := by
  intro n
  induction n with
  | zero =>
    intro c faces x hx
    simp only [childrenLoop, List.mem_singleton] at hx
    simp [hx]
  | succ n ih =>
    intro c faces x hx
    obtain ⟨child, hchild, mapped, _, _, hx⟩ := mem_childrenLoop_succ hx
    have h1 := ih child mapped x hx
    have h2 := res_of_mem_children hchild
    omega

/-- With at least one level of recursion, every cell emitted by the descend
recursion has a non-zero digit relative to its immediate parent: a digit-0
child sits at position 0 of the ordered child list, and both reverse tables
are empty at position 0, so it is pruned. -/
lemma childrenLoop_lastDigit_ne_zero : ∀ (n : Nat) (c : Cell) (faces : Finset Nat) (x : Cell),
    x ∈ childrenLoop (n + 1) c faces → x.lastDigit ≠ 0 := by
  intro n
  induction n with
  | zero =>
    intro c faces x hx
    obtain ⟨child, hchild, mapped, hne, hmap, hx⟩ := mem_childrenLoop_succ hx
    simp only [childrenLoop, List.mem_singleton] at hx
    subst hx
    intro h0
    rw [childPos_zero h0] at hmap
    exact hne (hmap.trans (reverse_choice_digit_zero _ _ _))
  | succ n ih =>
    intro c faces x hx
    obtain ⟨child, hchild, mapped, hne, hmap, hx⟩ := mem_childrenLoop_succ hx
    exact ih child mapped x hx

/-- Descend with an empty face set and at least one level to go prunes every
child immediately. -/
lemma childrenLoop_empty_faces (n : Nat) (c : Cell) : childrenLoop (n + 1) c ∅ = [] := by
  simp [childrenLoop, reverseMapFaces]

/-- If any cell visited by the ascend walk (the start cell or one of the
ancestors stepped through, `k` levels above the start for `k < n`) is a
pentagon or is the digit-0 child of its parent, the walk returns the empty
face set. -/
lemma traceLoop_shortcircuit : ∀ (n : Nat) (c : Cell) (faces : Finset Nat),
    (∃ k, k < n ∧ ((c.parentAt (c.res - k)).isPentagon = true ∨
      (c.parentAt (c.res - k)).lastDigit = 0)) →
    traceLoop n c faces = ∅ := by
  intro n
  induction n with
  | zero =>
    rintro c faces ⟨k, hk, _⟩
    omega
  | succ n ih =>
    rintro c faces ⟨k, hk, hkprop⟩
    simp only [traceLoop]
    by_cases hp : c.isPentagon = true
    · simp [hp]
    · rw [if_neg hp]
      by_cases hd : c.childPos = 0
      · rw [if_pos hd]
      · rw [if_neg hd]
        cases k with
        | zero =>
          rw [Nat.sub_zero, parentAt_res_self] at hkprop
          rcases hkprop with h | h
          · exact absurd h hp
          · exact absurd (childPos_zero h) hd
        | succ j =>
          have hwit : ∃ k, k < n ∧
              (((c.parentAt (c.res - 1)).parentAt ((c.parentAt (c.res - 1)).res - k)).isPentagon
                  = true ∨
                ((c.parentAt (c.res - 1)).parentAt
                  ((c.parentAt (c.res - 1)).res - k)).lastDigit = 0) := by
            refine ⟨j, by omega, ?_⟩
            rw [parentAt_pred_parentAt]
            exact hkprop
          split <;> split
          · rfl
          · exact ih _ _ hwit
          · rfl
          · exact ih _ _ hwit

/-- When the loop condition `res > 0` holds, the trace issued by the
coarsest-ancestor search never raises. -/
lemma trace_parent_ok (c : Cell) (faces : Finset Nat) (hr : 1 ≤ c.res) :
    ∃ b, trace_cell_to_ancestor_faces c faces (some ((c.res : Int) - 1)) = Except.ok b := by
  unfold trace_cell_to_ancestor_faces
  simp only [Option.getD_some]
  rw [if_neg (by omega), if_neg (by omega)]
  by_cases hf : faces = ∅ <;> simp [hf]

/-- The coarsest-ancestor loop, started with fuel equal to the current
resolution, always succeeds and never returns a cell finer than the start. -/
lemma coarsestLoop_res_le : ∀ (n : Nat) (c : Cell) (faces : Finset Nat), c.res = n →
    ∃ a, coarsestLoop n c faces = Except.ok a ∧ a.res ≤ n := by
  intro n
  induction n with
  | zero =>
    intro c faces hc
    exact ⟨c, rfl, hc.le⟩
  | succ n ih =>
    intro c faces hc
    obtain ⟨b, hb⟩ := trace_parent_ok c faces (by omega)
    have hstep : coarsestLoop (n + 1) c faces =
        (if b = ∅ then Except.ok c else coarsestLoop n (c.parentAt (c.res - 1)) b) := by
      simp only [coarsestLoop, hb]
    rw [hstep]
    by_cases hbe : b = ∅
    · rw [if_pos hbe]
      exact ⟨c, rfl, by omega⟩
    · rw [if_neg hbe]
      have hpr : (c.parentAt (c.res - 1)).res = n := by rw [parentAt_res]; omega
      obtain ⟨a, ha, hale⟩ := ih _ b hpr
      exact ⟨a, ha, by omega⟩

/-- Equality of `Except` results is decidable when both components are, so
concrete runs of the embedded functions can be checked by evaluation. -/
instance {e a : Type} [DecidableEq e] [DecidableEq a] : DecidableEq (Except e a) := fun x y =>
  match x, y with
  | .error u, .error v =>
    if h : u = v then isTrue (by rw [h]) else isFalse (by intro hh; cases hh; exact h rfl)
  | .ok u, .ok v =>
    if h : u = v then isTrue (by rw [h]) else isFalse (by intro hh; cases hh; exact h rfl)
  | .error _, .ok _ => isFalse (by intro hh; cases hh)
  | .ok _, .error _ => isFalse (by intro hh; cases hh)

/-! ### The claims -/

/-- C2, counterexample: the claim quantifies over every `target_res ≥
resolution(p)`, but at `target_res = resolution(p)` the base case of
`_children_by_face` fires before any face handling and returns `[parent]`
even for an empty input FaceSet, not an empty collection. -/
theorem descend_empty_faces_equal_res_counterexample :
    ((Cell.mk 0 []).res : Int) ≤ 0 ∧
      children_on_boundary_faces (Cell.mk 0 []) 0 ∅ = Except.ok [Cell.mk 0 []] ∧
      [Cell.mk 0 []] ≠ ([] : List Cell) :=
  ⟨by decide, rfl, by decide⟩

/-- C2, amended: for every parent cell `p` and every `target_res` strictly
greater than `resolution(p)`, `children_on_boundary_faces(p, target_res, {})`
returns an empty collection — every child is pruned with no recursion. -/
theorem descend_empty_faces (p : Cell) (t : Int) (ht : (p.res : Int) < t) :
    children_on_boundary_faces p t ∅ = Except.ok [] := by
  unfold children_on_boundary_faces
  rw [if_neg (by omega)]
  obtain ⟨m, hm⟩ : ∃ m, (t - (p.res : Int)).toNat = m + 1 :=
    ⟨(t - (p.res : Int)).toNat - 1, by omega⟩
  rw [hm, childrenLoop_empty_faces]

/-- C2, witness for the amended claim at a concrete input. -/
theorem descend_empty_faces_witness :
    children_on_boundary_faces (Cell.mk 0 []) 1 ∅ = Except.ok [] :=
  descend_empty_faces (Cell.mk 0 []) 1 (by decide)

/-- C3: `trace_cell_to_ancestor_faces(h, faces, res_parent)` raises the
InvalidResolution `ValueError` if and only if the effective `res_parent`
(defaulting to `resolution(h) - 1`) is `≥ resolution(h)` or `< 0`, and
`children_on_boundary_faces(parent, target_res, faces)` raises it if and only
if `target_res < resolution(parent)`.  Both checks sit in front of the
traversal, so in the error case the `Except.error` carries no partial
result. -/
theorem raises_iff_invalid_resolution :
    (∀ (h : Cell) (faces : Finset Nat) (rp : Option Int),
        (∃ e, trace_cell_to_ancestor_faces h faces rp = Except.error e) ↔
          ((h.res : Int) ≤ rp.getD ((h.res : Int) - 1) ∨ rp.getD ((h.res : Int) - 1) < 0)) ∧
    (∀ (p : Cell) (t : Int) (faces : Finset Nat),
        (∃ e, children_on_boundary_faces p t faces = Except.error e) ↔ t < (p.res : Int)) := by
  constructor
  · intro h faces rp
    unfold trace_cell_to_ancestor_faces
    by_cases h1 : (h.res : Int) ≤ rp.getD ((h.res : Int) - 1)
    · simp [h1]
    · rw [if_neg h1]
      by_cases h2 : rp.getD ((h.res : Int) - 1) < 0
      · simp [h2, h1]
      · rw [if_neg h2]
        by_cases h3 : faces = ∅ <;> simp [h3, h1, h2]
  · intro p t faces
    unfold children_on_boundary_faces
    by_cases h1 : t < (p.res : Int) <;> simp [h1]

/-- C4: descend always succeeds for `target_res ≥ resolution(p)`, every cell
in the result is at resolution exactly `target_res`, and at equal resolutions
the result degenerates to `[p]`. -/
theorem descend_results_at_target_res (p : Cell) (t : Int) (faces : Finset Nat)
    (ht : (p.res : Int) ≤ t) :
    ∃ l, children_on_boundary_faces p t faces = Except.ok l ∧
      (∀ c ∈ l, (c.res : Int) = t) ∧ (t = (p.res : Int) → l = [p]) := by
  unfold children_on_boundary_faces
  rw [if_neg (by omega)]
  refine ⟨_, rfl, ?_, ?_⟩
  · intro c hc
    have h1 := childrenLoop_res _ _ _ _ hc
    omega
  · intro hteq
    have h0 : (t - (p.res : Int)).toNat = 0 := by omega
    rw [h0]
    rfl

/-- C4, witness at a concrete input. -/
theorem descend_results_at_target_res_witness :
    ∃ l, children_on_boundary_faces (Cell.mk 0 []) 2 {1} = Except.ok l ∧
      (∀ c ∈ l, (c.res : Int) = 2) ∧ ((2 : Int) = ((Cell.mk 0 []).res : Int) → l = [Cell.mk 0 []]) :=
  descend_results_at_target_res (Cell.mk 0 []) 2 {1} (by decide)

/-- C6: for `target_res` strictly above the parent's resolution, no cell
returned by descend has digit 0 relative to its immediate parent — the
digit-0 (center) children are pruned, never visited. -/
theorem descend_excludes_center_children (p : Cell) (t : Int) (faces : Finset Nat)
    (ht : (p.res : Int) < t) (l : List Cell)
    (hl : children_on_boundary_faces p t faces = Except.ok l) :
    ∀ c ∈ l, c.lastDigit ≠ 0 := by
  unfold children_on_boundary_faces at hl
  rw [if_neg (by omega)] at hl
  have hleq : childrenLoop (t - (p.res : Int)).toNat p faces = l := by
    injection hl
  obtain ⟨m, hm⟩ : ∃ m, (t - (p.res : Int)).toNat = m + 1 :=
    ⟨(t - (p.res : Int)).toNat - 1, by omega⟩
  rw [hm] at hleq
  intro c hc
  exact childrenLoop_lastDigit_ne_zero m p faces c (hleq ▸ hc)

/-- C7: with an empty input face set and a valid ancestor resolution, ascend
returns the empty set without raising and before any level is walked. -/
theorem ascend_empty_faces (c : Cell) (a : Nat) (ha : a < c.res) :
    trace_cell_to_ancestor_faces c ∅ (some (a : Int)) = Except.ok ∅ := by
  unfold trace_cell_to_ancestor_faces
  simp only [Option.getD_some]
  rw [if_neg (by omega), if_neg (by omega)]
  simp

/-- C7, witness at a concrete input. -/
theorem ascend_empty_faces_witness :
    trace_cell_to_ancestor_faces (Cell.mk 0 [1]) ∅ (some ((0 : Nat) : Int)) = Except.ok ∅ :=
  ascend_empty_faces (Cell.mk 0 [1]) 0 (by decide)

/-- C9: with an empty input face set, the coarsest-ancestor search returns the
input cell unchanged and without error, at every resolution: at resolution 0
the loop never runs, and otherwise the very first one-level trace returns the
empty set, which stops the search at the current cell. -/
theorem coarsest_ancestor_empty_faces (h : Cell) :
    cell_to_coarsest_ancestor_on_faces h ∅ = Except.ok h := by
  unfold cell_to_coarsest_ancestor_on_faces
  cases hn : h.res with
  | zero => rfl
  | succ n =>
    have ht : trace_cell_to_ancestor_faces h ∅ (some ((h.res : Int) - 1)) = Except.ok ∅ := by
      unfold trace_cell_to_ancestor_faces
      simp only [Option.getD_some]
      rw [if_neg (by omega), if_neg (by omega)]
      simp
    simp [coarsestLoop, ht]

/-- C5: the ascend walk fails closed at pentagons and center children: if the
input cell, or any ancestor visited on the walk down to resolution `a + 1`, is
a pentagon or has digit 0 relative to its immediate parent, the whole trace is
the empty face set (in particular, ascend from any pentagon cell is empty). -/
theorem ascend_pentagon_short_circuit (h : Cell) (faces : Finset Nat) (a : Nat)
    (ha : a < h.res)
    (hyp : h.isPentagon = true ∨ ∃ ρ, a + 1 ≤ ρ ∧ ρ ≤ h.res ∧
      ((h.parentAt ρ).isPentagon = true ∨ (h.parentAt ρ).lastDigit = 0)) :
    trace_cell_to_ancestor_faces h faces (some (a : Int)) = Except.ok ∅ := by
  unfold trace_cell_to_ancestor_faces
  simp only [Option.getD_some]
  rw [if_neg (by omega), if_neg (by omega)]
  by_cases hf : faces = ∅
  · simp [hf]
  · rw [if_neg hf]
    have htn : ((a : Int)).toNat = a := by omega
    rw [htn]
    have hsc : traceLoop (h.res - a) h faces = ∅ := by
      apply traceLoop_shortcircuit
      rcases hyp with hp | ⟨ρ, hρ1, hρ2, hρp⟩
      · exact ⟨0, by omega, by rw [Nat.sub_zero, parentAt_res_self]; exact Or.inl hp⟩
      · refine ⟨h.res - ρ, by omega, ?_⟩
        have hsub : h.res - (h.res - ρ) = ρ := by omega
        rw [hsub]
        exact hρp
    rw [hsc]

/-- C5, witness: a pentagon input cell at resolution 1. -/
theorem ascend_pentagon_short_circuit_witness :
    trace_cell_to_ancestor_faces (Cell.mk 4 [0]) {1, 2, 3} (some ((0 : Nat) : Int)) =
      Except.ok ∅ :=
  ascend_pentagon_short_circuit (Cell.mk 4 [0]) {1, 2, 3} 0 (by decide) (Or.inl (by decide))

/-- C8: if the one-level trace from `c` is non-empty, the coarsest-ancestor
search moves up at least one level: its result is a cell at resolution at most
`resolution(c) - 1`. -/
theorem coarsest_ancestor_moves_up (c : Cell) (F : Finset Nat) (hr : 1 ≤ c.res)
    (hF : F ≠ ∅) (G : Finset Nat)
    (hG : trace_cell_to_parent_faces c F = Except.ok G) (hne : G ≠ ∅) :
    ∃ anc, cell_to_coarsest_ancestor_on_faces c F = Except.ok anc ∧
      anc.res ≤ c.res - 1 := by
  unfold cell_to_coarsest_ancestor_on_faces
  obtain ⟨m, hm⟩ : ∃ m, c.res = m + 1 := ⟨c.res - 1, by omega⟩
  have hG' : trace_cell_to_ancestor_faces c F (some ((c.res : Int) - 1)) = Except.ok G := hG
  have hstep : coarsestLoop (m + 1) c F = coarsestLoop m (c.parentAt (c.res - 1)) G := by
    simp only [coarsestLoop, hG']
    rw [if_neg hne]
  rw [hm, hstep]
  have hpr : (c.parentAt (c.res - 1)).res = m := by rw [parentAt_res]; omega
  obtain ⟨anc, ha, hle⟩ := coarsestLoop_res_le m _ G hpr
  exact ⟨anc, ha, by omega⟩

/-- C8, witness at a concrete input. -/
theorem coarsest_ancestor_moves_up_witness :
    ∃ anc, cell_to_coarsest_ancestor_on_faces (Cell.mk 0 [1]) {1, 2, 3, 4, 5, 6} =
        Except.ok anc ∧ anc.res ≤ (Cell.mk 0 [1]).res - 1 :=
  coarsest_ancestor_moves_up (Cell.mk 0 [1]) {1, 2, 3, 4, 5, 6} (by decide) (by decide)
    {3, 1} rfl (by decide)

/-- One step of the ascend walk, unfolded. -/
lemma traceLoop_one (c : Cell) (faces : Finset Nat) :
    traceLoop 1 c faces =
      if c.isPentagon then ∅
      else if c.childPos = 0 then ∅
      else if mapFaces (if (c.parentAt (c.res - 1)).isPentagon
              then forwardPent (c.res % 2) c.childPos
              else forwardHex (c.res % 2) c.childPos) faces = ∅ then ∅
      else mapFaces (if (c.parentAt (c.res - 1)).isPentagon
              then forwardPent (c.res % 2) c.childPos
              else forwardHex (c.res % 2) c.childPos) faces := rfl

/-- One step of the descend recursion, unfolded. -/
lemma childrenLoop_one (p : Cell) (faces : Finset Nat) :
    childrenLoop 1 p faces =
      p.children.flatMap (fun child =>
        if reverseMapFaces ((if p.isPentagon
            then reversePent ((p.res + 1) % 2)
            else reverseHex ((p.res + 1) % 2)) child.childPos) faces = ∅
        then [] else [child]) := rfl

/-- C1: one-level ascend/descend round-trip: for a valid non-pentagon cell `c`
at resolution at least 1, whenever the full-face one-level trace
`trace_cell_to_parent_faces(c, {1,...,6})` is non-empty, `c` is among the
cells returned by `children_on_boundary_faces(parent(c), resolution(c), F)`
for `F` the traced face set. -/
theorem ascend_descend_roundtrip (c : Cell) (hv : c.valid = true)
    (hp : c.isPentagon = false) (hr : 1 ≤ c.res) (F : Finset Nat)
    (hF : trace_cell_to_parent_faces c {1, 2, 3, 4, 5, 6} = Except.ok F)
    (hne : F ≠ ∅) :
    ∃ l, children_on_boundary_faces (c.parentAt (c.res - 1)) (c.res : Int) F = Except.ok l ∧
      c ∈ l := by
  -- Part 1: identify F as the forward image of the full face set.
  unfold trace_cell_to_parent_faces trace_cell_to_ancestor_faces at hF
  simp only [Option.getD_some] at hF
  rw [if_neg (by omega), if_neg (by omega), if_neg (by decide)] at hF
  have htn : ((c.res : Int) - 1).toNat = c.res - 1 := by omega
  rw [htn] at hF
  have hfuel : c.res - (c.res - 1) = 1 := by omega
  rw [hfuel, traceLoop_one] at hF
  rw [if_neg (by simp [hp])] at hF
  have hF1 : (if c.childPos = 0 then (∅ : Finset Nat)
      else if mapFaces (if (c.parentAt (c.res - 1)).isPentagon
              then forwardPent (c.res % 2) c.childPos
              else forwardHex (c.res % 2) c.childPos) {1, 2, 3, 4, 5, 6} = ∅ then ∅
      else mapFaces (if (c.parentAt (c.res - 1)).isPentagon
              then forwardPent (c.res % 2) c.childPos
              else forwardHex (c.res % 2) c.childPos) {1, 2, 3, 4, 5, 6}) = F := by
    injection hF
  by_cases hd : c.childPos = 0
  · rw [if_pos hd] at hF1
    exact absurd hF1.symm hne
  rw [if_neg hd] at hF1
  by_cases hm : mapFaces (if (c.parentAt (c.res - 1)).isPentagon
      then forwardPent (c.res % 2) c.childPos
      else forwardHex (c.res % 2) c.childPos) {1, 2, 3, 4, 5, 6} = ∅
  · rw [if_pos hm] at hF1
    exact absurd hF1.symm hne
  rw [if_neg hm] at hF1
  -- Facts about the digit of c.
  have hdne : c.digits ≠ [] := by
    intro hnil
    have : c.res = 0 := by simp [Cell.res, hnil]
    omega
  have hvd0 : validDigits (pentBase c.base) c.digits = true := by
    have h := hv
    unfold Cell.valid at h
    rw [Bool.and_eq_true] at h
    exact h.2
  have hd6 : c.lastDigit ≤ 6 :=
    validDigits_le6 c.digits (pentBase c.base) hvd0 c.lastDigit
      (getLastD_mem c.digits 0 hdne)
  have hcp6 : c.childPos ≤ 6 := le_trans (childPos_le_lastDigit c) hd6
  have hsplit : c.digits.take (c.res - 1) ++ [c.lastDigit] = c.digits :=
    take_pred_append_getLastD c.digits 0 hdne
  -- Part 2: descend one level from the parent.
  unfold children_on_boundary_faces
  have hpres : (c.parentAt (c.res - 1)).res = c.res - 1 := by rw [parentAt_res]; omega
  rw [hpres, if_neg (by omega)]
  have hfuel2 : ((c.res : Int) - ((c.res - 1 : Nat) : Int)).toNat = 1 := by omega
  rw [hfuel2, childrenLoop_one]
  have hpar : ((c.parentAt (c.res - 1)).res + 1) % 2 = c.res % 2 := by rw [hpres]; omega
  rw [hpar]
  refine ⟨_, rfl, ?_⟩
  rw [List.mem_flatMap]
  refine ⟨c, ?_, ?_⟩
  · -- c is among its parent's children.
    rw [mem_children_iff]
    refine ⟨c.lastDigit, ?_, ?_⟩
    · cases hpp : (c.parentAt (c.res - 1)).isPentagon
      · rw [Cell.childDigits, if_neg (by simp [hpp])]
        exact mem_hex_digits hd6
      · rw [Cell.childDigits, if_pos hpp]
        have hps : (pentBase c.base && (c.digits.take (c.res - 1)).all (· == 0)) = true := hpp
        rw [Bool.and_eq_true] at hps
        obtain ⟨hpb, hall⟩ := hps
        have hvd : validDigits (pentBase c.base) (c.digits.take (c.res - 1) ++ [c.lastDigit])
            = true := by
          rw [hsplit]
          exact hvd0
        exact mem_pent_digits hd6
          (validDigits_pent_last (c.digits.take (c.res - 1)) c.lastDigit (pentBase c.base)
            hvd hpb hall)
    · cases c with
      | mk b ds =>
        simp only [Cell.parentAt, Cell.mk.injEq, true_and]
        exact hsplit.symm
  · -- The reverse-mapped face set of c is non-empty, so c is emitted.
    cases hpp : (c.parentAt (c.res - 1)).isPentagon
    · have hF1h : mapFaces (forwardHex (c.res % 2) c.childPos) {1, 2, 3, 4, 5, 6} = F := by
        rwa [if_neg (show ¬((c.parentAt (c.res - 1)).isPentagon = true) by simp [hpp])] at hF1
      have hne2 : mapFaces (forwardHex (c.res % 2) c.childPos) {1, 2, 3, 4, 5, 6} ≠ ∅ := by
        rw [hF1h]; exact hne
      have hrmne := roundtrip_tables_hex (c.res % 2) (by omega) c.childPos (by omega) hne2
      rw [hF1h] at hrmne
      rw [if_neg (show ¬(false = true) by simp), if_neg hrmne]
      simp
    · have hF1p : mapFaces (forwardPent (c.res % 2) c.childPos) {1, 2, 3, 4, 5, 6} = F := by
        rwa [if_pos hpp] at hF1
      have hne2 : mapFaces (forwardPent (c.res % 2) c.childPos) {1, 2, 3, 4, 5, 6} ≠ ∅ := by
        rw [hF1p]; exact hne
      have hrmne := roundtrip_tables_pent (c.res % 2) (by omega) c.childPos (by omega) hne2
      rw [hF1p] at hrmne
      rw [if_pos (show true = true from rfl), if_neg hrmne]
      simp

/-- C1, witness at a concrete input: the digit-6 child of pentagon base cell
4 — the case that depends on the position keying of the pentagon tables (it
sits at child position 5) — traces to faces `{5, 3}` and is recovered by
descend. -/
theorem ascend_descend_roundtrip_witness :
    ∃ l, children_on_boundary_faces ((Cell.mk 4 [6]).parentAt ((Cell.mk 4 [6]).res - 1))
        (((Cell.mk 4 [6]).res : Nat) : Int) {5, 3} = Except.ok l ∧ Cell.mk 4 [6] ∈ l :=
  ascend_descend_roundtrip (Cell.mk 4 [6]) (by decide) (by decide) (by decide) {5, 3}
    (by decide) (by decide)

/-- C6, witness at a concrete input. -/
theorem descend_excludes_center_children_witness :
    (Cell.mk 0 [1]).lastDigit ≠ 0 :=
  descend_excludes_center_children (Cell.mk 0 []) 1 {1, 2, 3, 4, 5, 6} (by decide)
    [Cell.mk 0 [1], Cell.mk 0 [2], Cell.mk 0 [3], Cell.mk 0 [4], Cell.mk 0 [5], Cell.mk 0 [6]]
    (by decide) (Cell.mk 0 [1]) (by decide)

end H3Toolkit
